import Mathlib

/-!
Verification of the force_dynamics blind-evaluation pipeline.

Shallow embedding of the pipeline code:
  * `src/src/methodology.py` — `parse_json_response`, `prepare_blind_labels`
  * `src/src/db.py` — `insert_sentence`, `insert_run`, `insert_translation`,
    `insert_evaluation`
  * `src/src/pipeline.py` — `load_seed_data`, `run_pipeline`
  * `src/scripts/generate_tables.py` — `parse_scores`, the per-group
    aggregation in `main`

Python's `json` standard library is modelled by an executable JSON value
type with a recursive-descent parser (`json_loads`) and a serializer
(`json_dumps`, default separators).  Python's seeded `random.Random` is
modelled as a deterministic word stream with a position counter; `shuffle`
of a 3-element list is the concrete Fisher–Yates loop of CPython's
`random.shuffle` specialised to length 3.
-/

namespace FD

/-! ## JSON values (model of what Python's `json.loads` produces) -/

/-- A JSON value.  Numbers are kept symbolically as `mantissa * 10 ^ exp`
so that parsing is exact; Python object (dict) insertion order is kept as
an association list, later duplicate keys shadowing earlier ones exactly
as in a Python dict built by the parser. -/
inductive Json where
  | null : Json
  | bool : Bool → Json
  | num : Int → Int → Json
  | str : String → Json
  | arr : List Json → Json
  | obj : List (String × Json) → Json
  deriving Repr

/-- Python `dict.get` on a decoded JSON object: the value stored under a
key (last writer wins, as in a Python dict built by repeated insertion),
`none` when the key is absent or the receiver is not an object. -/
def Json.get : Json → String → Option Json
  | .obj kvs, k => kvs.foldl (fun acc p => if p.1 = k then some p.2 else acc) none
  | _, _ => none

/-! ## Python string helpers used by `parse_json_response` -/

/-- Whitespace stripped by Python's `str.strip()` (ASCII part). -/
def isPySpace (c : Char) : Bool :=
  c = ' ' ∨ c = '\t' ∨ c = '\n' ∨ c = '\x0d' ∨ c = '\x0b' ∨ c = '\x0c'

/-- Python `str.strip()`. -/
def pyStrip (s : String) : String :=
  ⟨(s.toList.dropWhile isPySpace).reverse.dropWhile isPySpace |>.reverse⟩

/-- Worker for `pyReplace`; `fuel` starts above the input length, and
every recursive call drops at least one character, so it never runs
out. -/
def pyReplaceAux (pat rep : List Char) : Nat → List Char → List Char
  | 0, s => s
  | _, [] => []
  | fuel + 1, c :: cs =>
    if pat.isPrefixOf (c :: cs) then
      rep ++ pyReplaceAux pat rep fuel ((c :: cs).drop pat.length)
    else c :: pyReplaceAux pat rep fuel cs

/-- Python `str.replace(pat, rep)` for a non-empty pattern: replace the
non-overlapping occurrences left to right. -/
def pyReplace (s pat rep : String) : String :=
  ⟨pyReplaceAux pat.toList rep.toList (s.length + 1) s.toList⟩

/-- Index of the first occurrence of character `c`, Python `str.find`
restricted to a single-character needle (`none` models `-1`). -/
def pyFindChar (cs : List Char) (c : Char) : Option Nat :=
  go cs 0
where
  go : List Char → Nat → Option Nat
    | [], _ => none
    | x :: xs, i => if x = c then some i else go xs (i + 1)

/-- Index of the last occurrence of character `c`, Python `str.rfind`
restricted to a single-character needle (`none` models `-1`). -/
def pyRFindChar (cs : List Char) (c : Char) : Option Nat :=
  go cs 0 none
where
  go : List Char → Nat → Option Nat → Option Nat
    | [], _, acc => acc
    | x :: xs, i, acc => go xs (i + 1) (if x = c then some i else acc)

/-! ## The JSON parser (model of `json.loads`) -/

/-- JSON inter-token whitespace (RFC 8259 / CPython `json`). -/
def isJsonSpace (c : Char) : Bool :=
  c = ' ' ∨ c = '\t' ∨ c = '\n' ∨ c = '\x0d'

def skipWs (cs : List Char) : List Char :=
  cs.dropWhile isJsonSpace

def isDigit (c : Char) : Bool := '0' ≤ c ∧ c ≤ '9'

def digitVal (c : Char) : Nat := c.toNat - '0'.toNat

/-- Parse a run of decimal digits, returning their value, their count and
the rest of the input. -/
def parseDigits : List Char → Nat → Nat → Nat × Nat × List Char
  | c :: cs, acc, n =>
    if isDigit c then parseDigits cs (acc * 10 + digitVal c) (n + 1) else (acc, n, c :: cs)
  | [], acc, n => (acc, n, [])

def hexVal (c : Char) : Option Nat :=
  if isDigit c then some (digitVal c)
  else if 'a' ≤ c ∧ c ≤ 'f' then some (c.toNat - 'a'.toNat + 10)
  else if 'A' ≤ c ∧ c ≤ 'F' then some (c.toNat - 'A'.toNat + 10)
  else none

/-- Parse the body of a JSON string literal after the opening quote,
handling the standard escapes (`\uXXXX` is mapped to the code point,
surrogate pairing not modelled). -/
def parseStringBody : List Char → List Char → Option (String × List Char)
  | [], _ => none
  | '"' :: cs, acc => some (⟨acc.reverse⟩, cs)
  | '\\' :: e :: cs, acc =>
    match e with
    | '"' => parseStringBody cs ('"' :: acc)
    | '\\' => parseStringBody cs ('\\' :: acc)
    | '/' => parseStringBody cs ('/' :: acc)
    | 'b' => parseStringBody cs ('\x08' :: acc)
    | 'f' => parseStringBody cs ('\x0c' :: acc)
    | 'n' => parseStringBody cs ('\n' :: acc)
    | 'r' => parseStringBody cs ('\x0d' :: acc)
    | 't' => parseStringBody cs ('\t' :: acc)
    | 'u' =>
      match cs with
      | h1 :: h2 :: h3 :: h4 :: cs' =>
        match hexVal h1, hexVal h2, hexVal h3, hexVal h4 with
        | some a, some b, some c, some d =>
          let n := ((a * 16 + b) * 16 + c) * 16 + d
          if n.isValidChar then parseStringBody cs' (Char.ofNat n :: acc) else none
        | _, _, _, _ => none
      | _ => none
    | _ => none
  | '\\' :: [], _ => none
  | c :: cs, acc => if c.toNat < 32 then none else parseStringBody cs (c :: acc)

/-- Parse a JSON number starting at the current position: an optional
minus sign, an integer part with no superfluous leading zero, an optional
fraction and an optional exponent.  The value is returned as
`(mantissa, exp)` meaning `mantissa * 10 ^ exp`. -/
def parseNumber (cs : List Char) : Option (Json × List Char) := do
  let (neg, cs₁) := match cs with
    | '-' :: rest => (true, rest)
    | _ => (false, cs)
  let (ip, ipLen, cs₂) := parseDigits cs₁ 0 0
  guard (0 < ipLen)
  guard (¬ (ipLen > 1 ∧ cs₁.head? = some '0'))
  let (m₁, e₁, cs₃) ← (match cs₂ with
    | '.' :: rest =>
      let (fp, fpLen, rest') := parseDigits rest 0 0
      if fpLen = 0 then none else some (ip * 10 ^ fpLen + fp, -(fpLen : Int), rest')
    | _ => some (ip, (0 : Int), cs₂) : Option (Nat × Int × List Char))
  let (e₂, cs₄) ← (match cs₃ with
    | 'e' :: rest | 'E' :: rest =>
      let (esign, rest₁) := match rest with
        | '+' :: r => ((1 : Int), r)
        | '-' :: r => ((-1 : Int), r)
        | _ => ((1 : Int), rest)
      let (ev, evLen, rest₂) := parseDigits rest₁ 0 0
      if evLen = 0 then none else some (esign * (ev : Int), rest₂)
    | _ => some ((0 : Int), cs₃) : Option (Int × List Char))
  let mz : Int := if neg then -(m₁ : Int) else (m₁ : Int)
  some (Json.num mz (e₁ + e₂), cs₄)

/-- The parser's pending work: a value, an object body (after `\x7b`,
whitespace skipped; `first` is true before the first member has been
read) or an array body (after `[`). -/
inductive ParseTask where
  | value : List Char → ParseTask
  | members : List Char → Bool → List (String × Json) → ParseTask
  | elements : List Char → Bool → List Json → ParseTask

/-- The recursive-descent JSON parser, written as one structural
recursion on `fuel` (which bounds the number of recursive descents, as
CPython's recursion limit bounds `json.loads`).  After a member or an
element, only `,` or the closing bracket may follow — no trailing
comma. -/
def parseRun : Nat → ParseTask → Option (Json × List Char)
  | 0, _ => none
  | fuel + 1, .value cs =>
    match skipWs cs with
    | [] => none
    | '\x7b' :: rest => parseRun fuel (.members (skipWs rest) true [])
    | '[' :: rest => parseRun fuel (.elements (skipWs rest) true [])
    | '"' :: rest => (parseStringBody rest []).map (fun p => (Json.str p.1, p.2))
    | 't' :: 'r' :: 'u' :: 'e' :: rest => some (Json.bool true, rest)
    | 'f' :: 'a' :: 'l' :: 's' :: 'e' :: rest => some (Json.bool false, rest)
    | 'n' :: 'u' :: 'l' :: 'l' :: rest => some (Json.null, rest)
    | cs' => parseNumber cs'
  | fuel + 1, .members cs first acc =>
    if cs.head? = some '\x7d' then
      some (Json.obj acc.reverse, cs.tail)
    else do
      let cs₁ ←
        if first then some cs else
          match cs with
          | ',' :: rest => some (skipWs rest)
          | _ => none
      let (k, cs₂) ←
        match cs₁ with
        | '"' :: rest => parseStringBody rest []
        | _ => none
      let cs₃ ←
        match skipWs cs₂ with
        | ':' :: rest => some rest
        | _ => none
      let (v, cs₄) ← parseRun fuel (.value cs₃)
      parseRun fuel (.members (skipWs cs₄) false ((k, v) :: acc))
  | fuel + 1, .elements cs first acc =>
    if cs.head? = some ']' then
      some (Json.arr acc.reverse, cs.tail)
    else do
      let cs₁ ←
        if first then some cs else
          match cs with
          | ',' :: rest => some (skipWs rest)
          | _ => none
      let (v, cs₂) ← parseRun fuel (.value cs₁)
      parseRun fuel (.elements (skipWs cs₂) false (v :: acc))

/-- Model of Python `json.loads`: parse exactly one JSON document,
allowing surrounding whitespace only; `none` models a raised
`json.JSONDecodeError`.  The fuel `2 * length + 4` dominates the number
of descents the grammar can make on the input. -/
def json_loads (s : String) : Option Json := do
  let cs := s.toList
  let (v, rest) ← parseRun (2 * cs.length + 4) (.value cs)
  if skipWs rest = [] then some v else none

/-! ## `methodology.parse_json_response` -/

/-- The error-sentinel record `\x7b"error": "json_parse_failed", "raw": text\x7d`
returned by `parse_json_response` when no JSON object can be located. -/
def parseFailSentinel (text : String) : Json :=
  Json.obj [("error", Json.str "json_parse_failed"), ("raw", Json.str text)]

/-- Embedding of `methodology.parse_json_response` (methodology.py,
lines 36–47).  Strips the input, deletes every occurrence of
"```json" and then of "```", strips again, and tries `json.loads`;
on failure it locates the first `\x7b` and the last `\x7d` and, when both
exist, re-runs `json.loads` on that slice *without* a surrounding
`try`/`except` — `Except.error` models the `json.JSONDecodeError`
escaping the function in that case.  Only when one of the braces is
missing does it return the error sentinel. -/
def parse_json_response (text : String) : Except String Json :=
  let cleaned := pyStrip text
  let cleaned := pyStrip (pyReplace (pyReplace cleaned "```json" "") "```" "")
  match json_loads cleaned with
  | some v => Except.ok v
  | none =>
    let cs := cleaned.toList
    match pyFindChar cs '\x7b', pyRFindChar cs '\x7d' with
    | some s, some e =>
      match json_loads ⟨(cs.drop s).take (e + 1 - s)⟩ with
      | some v => Except.ok v
      | none => Except.error "json.JSONDecodeError"
    | _, _ => Except.ok (parseFailSentinel text)

/-! ## `json.dumps` (default separators), used when persisting records -/

/-- Worker for `natDigits`; the fuel `n + 1` exceeds the digit count of
`n`, so it never runs out. -/
def natDigitsAux : Nat → Nat → String
  | 0, _ => ""
  | fuel + 1, n =>
    if n < 10 then String.mk [Char.ofNat (n % 10 + '0'.toNat)]
    else natDigitsAux fuel (n / 10) ++ String.mk [Char.ofNat (n % 10 + '0'.toNat)]

/-- Decimal digits of a natural number (model helper for `json.dumps`). -/
def natDigits (n : Nat) : String :=
  natDigitsAux (n + 1) n

/-- Serialize a JSON string body with the escapes `json.dumps` emits. -/
def dumpStringBody (cs : List Char) : String :=
  match cs with
  | [] => ""
  | c :: rest =>
    (if c = '"' then "\\\""
     else if c = '\\' then "\\\\"
     else if c = '\n' then "\\n"
     else if c = '\t' then "\\t"
     else if c = '\x0d' then "\\r"
     else String.mk [c]) ++ dumpStringBody rest

/-- Join serialized items with the default `json.dumps` item separator
`", "`. -/
def dumpSep : List String → String
  | [] => ""
  | [x] => x
  | x :: xs => x ++ ", " ++ dumpSep xs

/-- Worker for `json_dumps`, structurally recursive on a depth budget:
CPython's `json.dumps` is itself bounded by the interpreter recursion
limit (default 1000), which the budget mirrors. -/
def dumpsAux : Nat → Json → String
  | 0, _ => ""
  | fuel + 1, j =>
    match j with
    | .null => "null"
    | .bool true => "true"
    | .bool false => "false"
    | .num m e =>
      (if m < 0 then "-" else "") ++ natDigits m.natAbs ++
        (if e = 0 then "" else "e" ++ (if e < 0 then "-" else "") ++ natDigits e.natAbs)
    | .str s => "\"" ++ dumpStringBody s.toList ++ "\""
    | .arr xs => "[" ++ dumpSep (xs.map (dumpsAux fuel)) ++ "]"
    | .obj kvs =>
      "\x7b" ++
        dumpSep (kvs.map (fun p => "\"" ++ dumpStringBody p.1.toList ++ "\": " ++ dumpsAux fuel p.2))
        ++ "\x7d"

/-- Model of Python `json.dumps` with default separators `", "` and
`": "`.  Numbers print their stored mantissa/exponent form; the values
the pipeline persists only ever pass through `dumps` once, unchanged in
shape, so no float re-formatting is modelled. -/
def json_dumps (j : Json) : String :=
  dumpsAux 1000 j

/-! ## `random.Random` and `methodology.prepare_blind_labels` -/

/-- Model of a seeded `random.Random` instance: the generator's output
word stream is an arbitrary but fixed function of the draw index (the
Mersenne-Twister internals are opaque to the pipeline), and `pos` counts
the draws already consumed, so that successive draws read successive
stream positions.  Two sources are in the same state iff they are
equal. -/
structure PyRandom where
  stream : Nat → Nat
  pos : Nat

/-- Model of `random.Random(seed)` for a generator family `G` mapping a
seed to its word stream: a fresh source positioned at draw 0. -/
def mkRandom (G : Int → Nat → Nat) (seed : Int) : PyRandom :=
  ⟨G seed, 0⟩

/-- One bounded draw `_randbelow(n)`: a value `< n` read from the current
stream position, advancing the position. -/
def randbelow (r : PyRandom) (n : Nat) : Nat × PyRandom :=
  (r.stream r.pos % n, ⟨r.stream, r.pos + 1⟩)

/-- Component `i` of a triple (list index in the shuffled 3-list). -/
def get3 (t : α × α × α) : Nat → α
  | 0 => t.1
  | 1 => t.2.1
  | _ => t.2.2

/-- Replace component `i` of a triple. -/
def set3 (t : α × α × α) (i : Nat) (x : α) : α × α × α :=
  match i with
  | 0 => (x, t.2.1, t.2.2)
  | 1 => (t.1, x, t.2.2)
  | _ => (t.1, t.2.1, x)

/-- Python `x[i], x[j] = x[j], x[i]`. -/
def swap3 (t : α × α × α) (i j : Nat) : α × α × α :=
  set3 (set3 t i (get3 t j)) j (get3 t i)

/-- CPython `random.shuffle` on a 3-element list: Fisher–Yates over
`i = 2, 1`, drawing `j = _randbelow(i + 1)` and swapping positions `i`
and `j`. -/
def shuffle3 (r : PyRandom) (t : α × α × α) : (α × α × α) × PyRandom :=
  let (j2, r₁) := randbelow r 3
  let t₁ := swap3 t 2 j2
  let (j1, r₂) := randbelow r₁ 2
  let t₂ := swap3 t₁ 1 j1
  (t₂, r₂)

/-- The three blind labels. -/
inductive Label where
  | A | B | C
  deriving DecidableEq, Repr

instance : Fintype Label :=
  ⟨⟨{Label.A, Label.B, Label.C}, by decide⟩, fun l => by cases l <;> decide⟩

/-- The three provenance categories used by the pipeline
(`"GPT"`, `"Google"`, `"Human"`). -/
inductive Category where
  | GPT | Google | Human
  deriving DecidableEq, Repr

instance : Fintype Category :=
  ⟨⟨{Category.GPT, Category.Google, Category.Human}, by decide⟩, fun c => by cases c <;> decide⟩

/-- The tag string stored for a category in the persisted mapping. -/
def Category.name : Category → String
  | .GPT => "GPT"
  | .Google => "Google"
  | .Human => "Human"

/-- Embedding of `methodology.prepare_blind_labels` (methodology.py,
lines 108–113): build the entries `[("GPT", gpt), ("Google", google),
("Human", human)]`, shuffle them in place with the supplied source, and
read labels `A`, `B`, `C` off positions 0, 1, 2.  Returns the
(labels, mapping) pair together with the advanced source. -/
def prepare_blind_labels (rng : PyRandom) (gpt google human : String) :
    ((Label → String) × (Label → Category)) × PyRandom :=
  let s := shuffle3 rng ((Category.GPT, gpt), (Category.Google, google), (Category.Human, human))
  let labels : Label → String := fun l =>
    match l with
    | .A => s.1.1.2
    | .B => s.1.2.1.2
    | .C => s.1.2.2.2
  let mapping : Label → Category := fun l =>
    match l with
    | .A => s.1.1.1
    | .B => s.1.2.1.1
    | .C => s.1.2.2.1
  ((labels, mapping), s.2)

/-- The persisted form of a provenance mapping, as built by
`json.dumps(mapping)` in `pipeline.run_pipeline`. -/
def mappingJson (mapping : Label → Category) : Json :=
  Json.obj [("A", Json.str (mapping .A).name), ("B", Json.str (mapping .B).name),
    ("C", Json.str (mapping .C).name)]

/-- The text sitting in a given provenance slot of a call
`prepare_blind_labels rng gpt google human`. -/
def categoryText (gpt google human : String) : Category → String
  | .GPT => gpt
  | .Google => google
  | .Human => human

/-- The sequence of (labels, provenance-map) pairs produced by the
successive `prepare_blind_labels` calls of one run, threading the run's
single randomness source through the calls. -/
def pblSeq (r : PyRandom) :
    List (String × String × String) → List ((Label → String) × (Label → Category))
  | [] => []
  | t :: ts =>
    let s := prepare_blind_labels r t.1 t.2.1 t.2.2
    s.1 :: pblSeq s.2 ts

/-- The labeling sequence of a run whose source is seeded with
`seed + run_id`, as `run_pipeline` does (pipeline.py, line 50). -/
def runLabelSeq (G : Int → Nat → Nat) (seed runId : Int)
    (texts : List (String × String × String)) :
    List ((Label → String) × (Label → Category)) :=
  pblSeq (mkRandom G (seed + runId)) texts

/-! ## `generate_tables.parse_scores` -/

/-- The wire name of a blind label. -/
def Label.name : Label → String
  | .A => "A"
  | .B => "B"
  | .C => "C"

/-- The evaluation-record key holding a label's score. -/
def Label.scoreKey : Label → String
  | .A => "translation_A_score"
  | .B => "translation_B_score"
  | .C => "translation_C_score"

/-- Model of `score_map.get(label)` in `parse_scores`: the raw record's score for
wire label `label` (`none` for an unknown label or a missing key, as for
Python's `dict.get`). -/
def scoreLookup (eval_data : Json) (label : String) : Option Json :=
  if label = "A" then eval_data.get "translation_A_score"
  else if label = "B" then eval_data.get "translation_B_score"
  else if label = "C" then eval_data.get "translation_C_score"
  else none

/-- Python `scores[target] = v` guarded by `if target in scores`: update the
entry for an existing key, leave the dict unchanged otherwise. -/
def setIfPresent (scores : List (String × Option Json)) (target : String)
    (v : Option Json) : List (String × Option Json) :=
  scores.map (fun p => if p.1 = target then (p.1, v) else p)

/-- Embedding of `generate_tables.parse_scores` (generate_tables.py,
lines 12–32) after the two `json.loads` calls: `eval_data` is the decoded
evaluation record and `mapping` the decoded provenance dict's items in
insertion order.  Builds `\x7b'GPT': None, 'Google': None, 'Human': None\x7d`
and, for each `(label, target)` with `target` a known category key,
stores the raw record's score for `label` under `target`. -/
def parse_scores (eval_data : Json) (mapping : List (String × String)) :
    List (String × Option Json) :=
  mapping.foldl
    (fun scores p =>
      if scores.any (fun q => q.1 == p.2) then setIfPresent scores p.2 (scoreLookup eval_data p.1)
      else scores)
    [("GPT", none), ("Google", none), ("Human", none)]

/-- Reading `scores[target]` off the dict `parse_scores` returns
(first-match association-list lookup; the keys are unique). -/
def dictGet : List (String × Option Json) → String → Option (Option Json)
  | [], _ => none
  | p :: ps, k => if p.1 = k then some p.2 else dictGet ps k

/-- The provenance dict's items for a mapping `f`, in the insertion
order `A`, `B`, `C` used by `prepare_blind_labels`. -/
def mappingItems (f : Label → Category) : List (String × String) :=
  [("A", (f .A).name), ("B", (f .B).name), ("C", (f .C).name)]

/-! ## Per-group aggregation in `generate_tables.main` -/

/-- Embedding of the per-group summary computed in `generate_tables.main`
(lines 65–82): the GPT / Google / Human averages (`None` on an empty
score list) and the bias `gpt - human` (`None` unless both averages
exist).  Scores are modelled as rationals. -/
def aggRow (gpt google human : List ℚ) :
    Option ℚ × Option ℚ × Option ℚ × Option ℚ :=
  let g := if gpt.isEmpty then none else some (gpt.sum / gpt.length)
  let go := if google.isEmpty then none else some (google.sum / google.length)
  let h := if human.isEmpty then none else some (human.sum / human.length)
  let bias := match g, h with
    | some gv, some hv => some (gv - hv)
    | _, _ => none
  (g, go, h, bias)

/-- The arithmetic mean, as the spec's `mean(self) - mean(reference)`
reads it. -/
def listMean (xs : List ℚ) : ℚ := xs.sum / xs.length

/-! ## The persistence store (`db.py`) -/

/-- A row of the `sentences` table. -/
structure SentenceRow where
  id : Nat
  language : String
  original_text : String
  translation_human : String
  translation_google : String
  deriving Repr, DecidableEq

/-- A row of the `runs` table. -/
structure RunRow where
  id : Nat
  created_at : String
  provider : String
  model : String
  seed : Int
  config_hash : String
  deriving Repr, DecidableEq

/-- A row of the `translations` table. -/
structure TranslationRow where
  id : Nat
  run_id : Nat
  sentence_id : Nat
  translation_gpt : String
  deriving Repr, DecidableEq

/-- A row of the `evaluations` table. -/
structure EvaluationRow where
  id : Nat
  run_id : Nat
  sentence_id : Nat
  evaluation_json : String
  mapping_json : String
  deriving Repr, DecidableEq

/-- The SQLite database of `db.py`: the four tables in insertion order
together with the next `AUTOINCREMENT` id of each. -/
structure DB where
  sentences : List SentenceRow
  runs : List RunRow
  translations : List TranslationRow
  evaluations : List EvaluationRow
  nextSentenceId : Nat
  nextRunId : Nat
  nextTranslationId : Nat
  nextEvaluationId : Nat
  deriving Repr, DecidableEq

/-- A freshly initialised database (`init_db` on a new file):
`AUTOINCREMENT` counters start at 1. -/
def initDB : DB := ⟨[], [], [], [], 1, 1, 1, 1⟩

/-- Does a sentence row match the `UNIQUE(language, original_text)`
key? -/
def sentKeyMatch (language original : String) (r : SentenceRow) : Bool :=
  r.language == language && r.original_text == original

/-- Embedding of `db.insert_sentence` (db.py, lines 72–90):
`INSERT OR IGNORE` under the `UNIQUE(language, original_text)`
constraint, then `SELECT id` for the key and return it.  `none` models
the `TypeError` Python would raise if the final `SELECT` found no row
(impossible after the insert). -/
def insert_sentence (db : DB) (language original human google : String) :
    Option (Nat × DB) :=
  let db' :=
    if db.sentences.any (sentKeyMatch language original) then db
    else { db with
      sentences := db.sentences ++ [⟨db.nextSentenceId, language, original, human, google⟩],
      nextSentenceId := db.nextSentenceId + 1 }
  match db'.sentences.find? (sentKeyMatch language original) with
  | some row => some (row.id, db')
  | none => none

/-- Embedding of `db.insert_run`: plain `INSERT`, returning
`cur.lastrowid`. -/
def insert_run (db : DB) (provider model : String) (seed : Int)
    (config_hash created_at : String) : Nat × DB :=
  (db.nextRunId,
    { db with
      runs := db.runs ++ [⟨db.nextRunId, created_at, provider, model, seed, config_hash⟩],
      nextRunId := db.nextRunId + 1 })

/-- Embedding of `db.insert_translation`: plain `INSERT`. -/
def insert_translation (db : DB) (run_id sentence_id : Nat) (translation_gpt : String) : DB :=
  { db with
    translations :=
      db.translations ++ [⟨db.nextTranslationId, run_id, sentence_id, translation_gpt⟩],
    nextTranslationId := db.nextTranslationId + 1 }

/-- Embedding of `db.insert_evaluation`: plain `INSERT`. -/
def insert_evaluation (db : DB) (run_id sentence_id : Nat)
    (evaluation_json mapping_json : String) : DB :=
  { db with
    evaluations :=
      db.evaluations ++ [⟨db.nextEvaluationId, run_id, sentence_id, evaluation_json, mapping_json⟩],
    nextEvaluationId := db.nextEvaluationId + 1 }

/-! ## The pipeline (`pipeline.py`) -/

/-- Python `str.capitalize()`: first character upper-cased, the rest
lower-cased. -/
def pyCapitalize (s : String) : String :=
  match s.toList with
  | [] => ""
  | c :: cs => ⟨c.toUpper :: cs.map Char.toLower⟩

/-- One row of a seed CSV file: the columns `load_seed_data` reads. -/
structure CsvRow where
  language : String
  original_text : String
  translation_human : String
  translation_google : String

/-- One `\x7bprovider, name\x7d` entry of `config["models"]`. -/
structure ModelCfg where
  provider : String
  name : String

/-- The effective configuration consumed by `run_pipeline`: the seed,
the target languages, the models to run, the per-language seed-data
tables (`none` models a missing CSV file), the two system prompts and
the configuration fingerprint. -/
structure Config where
  seed : Int
  languages : List String
  models : List ModelCfg
  seedData : String → Option (List CsvRow)
  translation_system : String
  evaluation_system : String
  cfg_hash : String

/-- Embedding of `pipeline.load_seed_data` (pipeline.py, lines 14–27):
for each configured language, read that language's seed file (error on a
missing file, modelling `FileNotFoundError`) and insert every row
idempotently — note the inserted `language` column comes from the CSV
row itself, not from the configured language name. -/
def load_seed_data (seedData : String → Option (List CsvRow)) (languages : List String)
    (db : DB) : Except String DB :=
  languages.foldlM
    (fun db lang =>
      match seedData lang with
      | none => Except.error "FileNotFoundError"
      | some rows =>
        rows.foldlM
          (fun db row =>
            match insert_sentence db row.language row.original_text
                row.translation_human row.translation_google with
            | some (_, db') => Except.ok db'
            | none => Except.error "TypeError")
          db)
    db

/-- The two gateway clients (`openai_client.chat_complete`,
`gemini_client.chat_complete`), opaque capabilities taking
(model, system_prompt, user_prompt) at temperature 0; `Except.error`
models a transport/auth exception. -/
def Gateway := String → String → String → Except String String

/-- Embedding of `methodology._call_model`: dispatch on the provider
name, raising `ValueError` for an unknown provider. -/
def call_model (oai gem : Gateway) (provider model system_prompt user_prompt : String) :
    Except String String :=
  if provider = "openai" then oai model system_prompt user_prompt
  else if provider = "gemini" then gem model system_prompt user_prompt
  else Except.error ("ValueError: Unknown provider: " ++ provider)

/-- Embedding of `methodology.get_translation`: delegate to
`_call_model`. -/
def get_translation (oai gem : Gateway) (provider model system_prompt user_prompt : String) :
    Except String String :=
  call_model oai gem provider model system_prompt user_prompt

/-- The fixed rubric text `methodology.FD_FRAMEWORK` (contents opaque to
every claim; kept as one literal). -/
def FD_FRAMEWORK : String :=
  "\nForce Dynamics (Talmy, 2000) Framework:\n\nCORE CONCEPTS:\n- Agonist: The entity whose situation is being described (typically the subject)\n- Antagonist: The opposing force entity (may be explicit or implicit)\n- Force Relations: How Agonist and Antagonist interact\n\nFORCE RELATION TYPES:\n1. Causation: Antagonist causes Agonist to act/change state\n2. Permission/Letting: Antagonist allows Agonist to act\n3. Blocking/Prevention: Antagonist prevents Agonist from acting\n4. Overcoming: Agonist overcomes opposing force\n"

/-- The blind-evaluation user prompt built in
`methodology.blind_evaluate` (the f-string of lines 59–102): the rubric
and the three translations under anonymous labels `A`, `B`, `C`; no
provenance appears anywhere in it. -/
def evaluationUserPrompt (original_text translation_a translation_b translation_c : String) :
    String :=
  "Evaluate three translations of the same English sentence, focusing EXCLUSIVELY on the verb phrase and its preservation of Force Dynamics relations.\n\n"
    ++ FD_FRAMEWORK
    ++ "\n\nEVALUATION CRITERIA:\n\n1. Lexis (verb phrase only):\n   - Word choice appropriateness\n   - Idiomaticity in target language\n   - Register appropriateness\n\n2. Syntax (verb phrase only):\n   - Grammatical accuracy\n   - Structural correctness\n   - Word order appropriateness\n\n3. Semantics (verb phrase only):\n   - Meaning preservation\n   - Force Dynamics relations:\n     * Identify Agonist and Antagonist (if present)\n     * Identify force relation type (causation, permission, blocking, etc.)\n     * Assess preservation of FD structure from source\n\nOriginal sentence (English): "
    ++ original_text
    ++ "\n\nTranslation A: " ++ translation_a
    ++ "\nTranslation B: " ++ translation_b
    ++ "\nTranslation C: " ++ translation_c
    ++ "\n\nFor each translation (A, B, C):\n1. Describe the verb phrase in terms of lexis, syntax, semantics (including FD analysis)\n2. Provide a numerical score (0.0 to 1.0) for verb phrase quality\n\nOutput format (JSON only, no other text):\n\x7b\n  \"translation_A_description\": \"string\",\n  \"translation_A_score\": float,\n  \"translation_B_description\": \"string\",\n  \"translation_B_score\": float,\n  \"translation_C_description\": \"string\",\n  \"translation_C_score\": float,\n  \"comparison\": \"string\"\n\x7d\n"

/-- Embedding of `methodology.blind_evaluate` (lines 50–105): build the
anonymous evaluation prompt, call the gateway and parse the reply.  An
exception from the gateway or from `parse_json_response` propagates. -/
def blind_evaluate (oai gem : Gateway) (provider model system_prompt original_text
    translation_a translation_b translation_c : String) : Except String Json := do
  let user_prompt := evaluationUserPrompt original_text translation_a translation_b translation_c
  let response ← call_model oai gem provider model system_prompt user_prompt
  parse_json_response response

/-- The per-sentence body of `run_pipeline`'s inner loop (pipeline.py,
lines 63–85): translate, blind-label, blindly evaluate, then persist the
translation and the evaluation (record and provenance map serialized
with `json.dumps`). -/
def processRow (oai gem : Gateway) (provider model tsys esys lang : String) (run_id : Nat)
    (st : PyRandom × DB) (row : SentenceRow) : Except String (PyRandom × DB) := do
  let user_prompt :=
    "Translate the following sentence from English to " ++ pyCapitalize lang ++ ":\n\n"
      ++ row.original_text
  let translation_gpt ← get_translation oai gem provider model tsys user_prompt
  let s := prepare_blind_labels st.1 translation_gpt row.translation_google row.translation_human
  let labels := s.1.1
  let mapping := s.1.2
  let evaluation ← blind_evaluate oai gem provider model esys row.original_text
    (labels .A) (labels .B) (labels .C)
  let db₁ := insert_translation st.2 run_id row.id translation_gpt
  let db₂ := insert_evaluation db₁ run_id row.id (json_dumps evaluation)
    (json_dumps (mappingJson mapping))
  Except.ok (s.2, db₂)

/-- The per-language body of `run_pipeline` (pipeline.py, lines 52–85):
select the sentences whose stored `language` equals the *capitalized*
configured language name (ordered by id — under the store invariant the
table's list order is id order) and process each in turn. -/
def processLang (oai gem : Gateway) (provider model tsys esys : String) (run_id : Nat)
    (st : PyRandom × DB) (lang : String) : Except String (PyRandom × DB) :=
  let rows := st.2.sentences.filter (fun r => r.language == pyCapitalize lang)
  rows.foldlM (processRow oai gem provider model tsys esys lang run_id) st

/-- The per-model body of `run_pipeline` (pipeline.py, lines 44–85):
create the Run row, seed the run's own randomness source with
`seed + run_id`, and process every configured language.  `clock` stands
for `datetime.utcnow().isoformat()`, indexed by the run id about to be
assigned. -/
def processModel (oai gem : Gateway) (G : Int → Nat → Nat) (clock : Nat → String)
    (cfg : Config) (db : DB) (mc : ModelCfg) : Except String DB := do
  let created_at := clock db.nextRunId
  let (run_id, db₁) := insert_run db mc.provider mc.name cfg.seed cfg.cfg_hash created_at
  let rng := mkRandom G (cfg.seed + run_id)
  let st ← cfg.languages.foldlM
    (processLang oai gem mc.provider mc.name cfg.translation_system cfg.evaluation_system run_id)
    (rng, db₁)
  Except.ok st.2

/-- Embedding of `pipeline.run_pipeline` (pipeline.py, lines 30–87):
initialise the store, load the seed data, then run every configured
model. -/
def run_pipeline (cfg : Config) (oai gem : Gateway) (G : Int → Nat → Nat)
    (clock : Nat → String) (db₀ : DB) : Except String DB := do
  let db ← load_seed_data cfg.seedData cfg.languages db₀
  cfg.models.foldlM (processModel oai gem G clock cfg) db

/-- The number of `translations` rows for a given (run, sentence). -/
def countTrans (db : DB) (r sid : Nat) : Nat :=
  (db.translations.filter (fun t => t.run_id == r && t.sentence_id == sid)).length

/-- The number of `evaluations` rows for a given (run, sentence). -/
def countEval (db : DB) (r sid : Nat) : Nat :=
  (db.evaluations.filter (fun e => e.run_id == r && e.sentence_id == sid)).length

/-- Store invariants guaranteed by the SQLite schema: ids below the
next `AUTOINCREMENT` value, sentence ids strictly increasing in table
order (so `ORDER BY id` is table order), the
`UNIQUE(language, original_text)` constraint, and no translation or
evaluation row referring to a run id that has not been assigned yet. -/
structure DB.WF (db : DB) : Prop where
  sent_lt : ∀ s ∈ db.sentences, s.id < db.nextSentenceId
  sent_sorted : db.sentences.Pairwise (fun a b => a.id < b.id)
  sent_unique : db.sentences.Pairwise
    (fun a b => ¬(a.language = b.language ∧ a.original_text = b.original_text))
  runs_lt : ∀ r ∈ db.runs, r.id < db.nextRunId
  trans_runs_lt : ∀ t ∈ db.translations, t.run_id < db.nextRunId
  eval_runs_lt : ∀ e ∈ db.evaluations, e.run_id < db.nextRunId

/-! ## Concrete scenarios exercising `run_pipeline` -/

/-- A translation gateway stub: a fixed translation for the translation
prompt, an empty JSON object for the evaluation prompt. -/
def stubOai : Gateway := fun _ sys _ =>
  if sys = "TSYS" then Except.ok "selftrans" else Except.ok "\x7b\x7d"

/-- An unused second gateway stub. -/
def stubGem : Gateway := fun _ _ _ => Except.error "unused"

/-- A constant generator family and clock for concrete runs. -/
def stubG : Int → Nat → Nat := fun _ _ => 0

/-- A constant clock for concrete runs. -/
def stubClock : Nat → String := fun _ => "T0"

/-- A one-sentence seed file whose `language` column is capitalized the
way the pipeline's query capitalizes language names. -/
def matchedCfg : Config :=
  ⟨42, ["finnish"], [⟨"openai", "gpt-4o"⟩],
    fun l => if l = "finnish" then some [⟨"Finnish", "orig", "hum", "goog"⟩] else none,
    "TSYS", "ESYS", "HASH"⟩

/-- The store after seeding `matchedCfg`'s data into a fresh store. -/
def matchedSeedDB : DB := ⟨[⟨1, "Finnish", "orig", "hum", "goog"⟩], [], [], [], 2, 1, 1, 1⟩

/-- The store after running the pipeline on `matchedCfg`: one run, one
translation and one evaluation row. -/
def matchedFinalDB : DB :=
  ⟨[⟨1, "Finnish", "orig", "hum", "goog"⟩],
   [⟨1, "T0", "openai", "gpt-4o", 42, "HASH"⟩],
   [⟨1, 1, 1, "selftrans"⟩],
   [⟨1, 1, 1, "\x7b\x7d", "\x7b\"A\": \"Google\", \"B\": \"Human\", \"C\": \"GPT\"\x7d"⟩],
   2, 2, 2, 2⟩

/-- The single pre-existing row of the C9 witness store. -/
def c9Row : SentenceRow := ⟨1, "Finnish", "orig", "hum", "goog"⟩

/-- The C9 witness store. -/
def c9DB : DB := ⟨[c9Row], [], [], [], 2, 1, 1, 1⟩

/-- All translation rows reference run ids below `B`. -/
def transBound (db : DB) (B : Nat) : Prop := ∀ t ∈ db.translations, t.run_id < B

/-- All evaluation rows reference run ids below `B`. -/
def evalBound (db : DB) (B : Nat) : Prop := ∀ e ∈ db.evaluations, e.run_id < B

/-- The number of stored sentences with id `s` that the `processLang`
query for `lang` selects (language column equal to the capitalized
configured name). -/
def langMatchCount (sentences : List SentenceRow) (lang : String) (s : Nat) : Nat :=
  ((sentences.filter (fun row => row.language == pyCapitalize lang)).filter
    (fun row => row.id == s)).length

/-- The same scenario except that the seed file stores the language in
lower case, as the configured language name itself is written. -/
def lowercaseCfg : Config :=
  ⟨42, ["finnish"], [⟨"openai", "gpt-4o"⟩],
    fun l => if l = "finnish" then some [⟨"finnish", "orig", "hum", "goog"⟩] else none,
    "TSYS", "ESYS", "HASH"⟩

/-- The store after running the pipeline on `lowercaseCfg`: the sentence
is stored, the run exists, but no translation or evaluation row was
produced because the query capitalizes the configured name. -/
def lowercaseFinalDB : DB :=
  ⟨[⟨1, "finnish", "orig", "hum", "goog"⟩],
   [⟨1, "T0", "openai", "gpt-4o", 42, "HASH"⟩],
   [], [], 2, 2, 1, 1⟩

/-- Applying `random.shuffle` to a 3-element list produces one of the six
permutations of its elements. -/
theorem shuffle3_cases (r : PyRandom) (a b c : α) :
    (shuffle3 r (a, b, c)).1 = (a, b, c) ∨ (shuffle3 r (a, b, c)).1 = (a, c, b) ∨
    (shuffle3 r (a, b, c)).1 = (b, a, c) ∨ (shuffle3 r (a, b, c)).1 = (b, c, a) ∨
    (shuffle3 r (a, b, c)).1 = (c, a, b) ∨ (shuffle3 r (a, b, c)).1 = (c, b, a) := by
  have h2 : r.stream r.pos % 3 = 0 ∨ r.stream r.pos % 3 = 1 ∨ r.stream r.pos % 3 = 2 := by
    omega
  have h1 : r.stream (r.pos + 1) % 2 = 0 ∨ r.stream (r.pos + 1) % 2 = 1 := by omega
  rcases h2 with h2 | h2 | h2 <;> rcases h1 with h1 | h1 <;>
    simp [shuffle3, randbelow, swap3, get3, set3, h2, h1]

/-- A map out of the three labels whose values at `A`, `B`, `C` are
pairwise distinct is a bijection onto the three categories. -/
theorem bij_of_distinct (f : Label → Category) (h1 : f .A ≠ f .B) (h2 : f .A ≠ f .C)
    (h3 : f .B ≠ f .C) : Function.Bijective f := by
  rw [Fintype.bijective_iff_injective_and_card]
  refine ⟨fun x y hxy => ?_, by decide⟩
  cases x <;> cases y <;> simp_all

/-- Main structural lemma about `prepare_blind_labels`: the provenance
map is a bijection from labels onto categories, and each label's text is
the text of the category the provenance map assigns to it. -/
theorem prepare_blind_labels_spec (rng : PyRandom) (gpt google human : String) :
    Function.Bijective (prepare_blind_labels rng gpt google human).1.2 ∧
    ∀ l : Label, (prepare_blind_labels rng gpt google human).1.1 l =
      categoryText gpt google human ((prepare_blind_labels rng gpt google human).1.2 l) := by
  have hc := shuffle3_cases rng (Category.GPT, gpt) (Category.Google, google)
    (Category.Human, human)
  simp only [prepare_blind_labels]
  rcases hc with hc | hc | hc | hc | hc | hc <;> rw [hc] <;>
    exact ⟨bij_of_distinct _ (fun h => Category.noConfusion h)
      (fun h => Category.noConfusion h) (fun h => Category.noConfusion h),
      fun l => by cases l <;> rfl⟩

/-- C1: for every randomness source and every triple of input texts,
`prepare_blind_labels` returns a provenance map that is a bijection
between the labels `\x7bA, B, C\x7d` and the categories
`\x7bGPT, Google, Human\x7d`: every label appears exactly once as a key
(the map is total on `Label`) and every category exactly once as a value
(the map is injective and surjective). -/
theorem prepare_blind_labels_mapping_bijective (rng : PyRandom) (gpt google human : String) :
    Function.Bijective (prepare_blind_labels rng gpt google human).1.2 :=
  (prepare_blind_labels_spec rng gpt google human).1

/-- C6: when two (or all three) of the input texts are equal, the result
of `prepare_blind_labels` is still well-formed — the provenance map is
still a bijection onto the three categories determined by the argument
slots, and each label's text equals the text of the category the
provenance map assigns to it, so identical text does not collapse two
categories into one label. -/
theorem prepare_blind_labels_duplicate_texts (rng : PyRandom) (gpt google human : String)
    (hdup : gpt = google ∨ google = human ∨ gpt = human) :
    Function.Bijective (prepare_blind_labels rng gpt google human).1.2 ∧
    ∀ l : Label, (prepare_blind_labels rng gpt google human).1.1 l =
      categoryText gpt google human ((prepare_blind_labels rng gpt google human).1.2 l) :=
  prepare_blind_labels_spec rng gpt google human

/-- Witness for C6 at a concrete source and a duplicated text pair. -/
theorem prepare_blind_labels_duplicate_texts_witness :
    Function.Bijective (prepare_blind_labels ⟨fun _ => 0, 0⟩ "same" "same" "other").1.2 ∧
    ∀ l : Label, (prepare_blind_labels ⟨fun _ => 0, 0⟩ "same" "same" "other").1.1 l =
      categoryText "same" "same" "other"
        ((prepare_blind_labels ⟨fun _ => 0, 0⟩ "same" "same" "other").1.2 l) :=
  prepare_blind_labels_duplicate_texts ⟨fun _ => 0, 0⟩ "same" "same" "other" (Or.inl rfl)

/-- C4: `prepare_blind_labels` is deterministic in its randomness
source — sources in the same state and the same texts give identical
labels and provenance maps — and the labeling sequence of a whole run,
whose source `run_pipeline` seeds with `seed + run_id`, is a function of
the generator family, the base seed and the run identity. -/
theorem prepare_blind_labels_deterministic :
    (∀ (r₁ r₂ : PyRandom) (gpt google human : String), r₁ = r₂ →
      prepare_blind_labels r₁ gpt google human = prepare_blind_labels r₂ gpt google human) ∧
    (∀ (G : Int → Nat → Nat) (seed₁ runId₁ seed₂ runId₂ : Int)
      (texts : List (String × String × String)), seed₁ + runId₁ = seed₂ + runId₂ →
      runLabelSeq G seed₁ runId₁ texts = runLabelSeq G seed₂ runId₂ texts) := by
  constructor
  · intro r₁ r₂ gpt google human hr
    rw [hr]
  · intro G seed₁ runId₁ seed₂ runId₂ texts hsum
    unfold runLabelSeq mkRandom
    rw [hsum]

/-- Witness for C4: equal states agree, and runs with equal
`seed + run_id` produce the same labeling sequence. -/
theorem prepare_blind_labels_deterministic_witness :
    prepare_blind_labels ⟨fun _ => 0, 0⟩ "a" "b" "c" =
      prepare_blind_labels ⟨fun _ => 0, 0⟩ "a" "b" "c" ∧
    runLabelSeq (fun _ n => n) 40 2 [("a", "b", "c")] =
      runLabelSeq (fun _ n => n) 41 1 [("a", "b", "c")] :=
  ⟨prepare_blind_labels_deterministic.1 ⟨fun _ => 0, 0⟩ ⟨fun _ => 0, 0⟩ "a" "b" "c" rfl,
   prepare_blind_labels_deterministic.2 (fun _ n => n) 40 2 41 1 [("a", "b", "c")] (by decide)⟩

/-- C2 (code bug): `parse_json_response` handles fenced JSON and
prose-wrapped JSON correctly, but on syntactically invalid input that
contains a `\x7b` and a `\x7d` the fallback `json.loads` call (line 46 of
methodology.py) runs outside any `try`, so the function raises instead
of returning the error sentinel the spec requires. -/
theorem parse_json_response_cases :
    parse_json_response "```json\n\x7b\"translation_A_score\": 0.9\x7d\n```" =
      Except.ok (Json.obj [("translation_A_score", Json.num 9 (-1))]) ∧
    parse_json_response "Here is the result: \x7b\"a\": 1\x7d Thanks" =
      Except.ok (Json.obj [("a", Json.num 1 0)]) ∧
    parse_json_response "oops \x7b not json \x7d" = Except.error "json.JSONDecodeError" :=
  ⟨rfl, rfl, rfl⟩

/-- C10: `parse_json_response` deletes code-fence markers *inside* JSON
string values — on an input that is already a valid JSON object whose
value contains "```", the returned record's value has the marker
stripped and so differs from the value actually present in the input. -/
theorem parse_json_response_strips_fences_inside_strings :
    json_loads "\x7b\"a\": \"x```y\"\x7d" = some (Json.obj [("a", Json.str "x```y")]) ∧
    parse_json_response "\x7b\"a\": \"x```y\"\x7d" = Except.ok (Json.obj [("a", Json.str "xy")]) ∧
    Json.str "xy" ≠ Json.str "x```y" :=
  ⟨rfl, rfl, fun h => absurd (Json.str.inj h) (by decide)⟩

/-- C3: for every evaluation record and every provenance map that is
injective on the three labels (hence a bijection onto the three
categories), `parse_scores` assigns to each category exactly the score
the raw record holds under the score key of the label mapped to that
category. -/
theorem parse_scores_recovers (e : Json) (f : Label → Category)
    (hinj : Function.Injective f) (l : Label) :
    dictGet (parse_scores e (mappingItems f)) ((f l).name) =
      some (e.get l.scoreKey) := by
  cases hA : f .A <;> cases hB : f .B <;> cases hC : f .C <;>
    first
      | exact absurd (hinj (hA.trans hB.symm)) (by decide)
      | exact absurd (hinj (hA.trans hC.symm)) (by decide)
      | exact absurd (hinj (hB.trans hC.symm)) (by decide)
      | (cases l <;> (simp only [mappingItems, hA, hB, hC]; rfl))

/-- Witness for C3 at a concrete record and mapping. -/
theorem parse_scores_recovers_witness :
    dictGet
      (parse_scores (Json.obj [("translation_A_score", Json.num 9 (-1))])
        (mappingItems (fun l => match l with
          | .A => Category.Human
          | .B => Category.GPT
          | .C => Category.Google)))
      Category.Human.name =
      some ((Json.obj [("translation_A_score", Json.num 9 (-1))]).get Label.A.scoreKey) :=
  parse_scores_recovers (Json.obj [("translation_A_score", Json.num 9 (-1))])
    (fun l => match l with
      | .A => Category.Human
      | .B => Category.GPT
      | .C => Category.Google)
    (by decide) Label.A

/-- C8: the aggregation's bias column is the arithmetic mean of the
self (GPT) scores minus the arithmetic mean of the reference (Human)
scores, and it is the explicit no-data indicator `None` — not zero —
whenever either score list is empty. -/
theorem aggRow_bias_spec (gs gos hs : List ℚ) :
    (gs ≠ [] → hs ≠ [] → (aggRow gs gos hs).2.2.2 = some (listMean gs - listMean hs)) ∧
    ((gs = [] ∨ hs = []) → (aggRow gs gos hs).2.2.2 = none) := by
  constructor
  · intro hg hh
    rcases gs with _ | ⟨x, xs⟩
    · exact absurd rfl hg
    rcases hs with _ | ⟨y, ys⟩
    · exact absurd rfl hh
    simp [aggRow, listMean]
  · rintro (h | h)
    · simp [aggRow, h]
    · rcases gs with _ | ⟨x, xs⟩ <;> simp [aggRow, h]

/-- Witness for C8: a populated group and an empty self-score group. -/
theorem aggRow_bias_spec_witness :
    (aggRow [1] [] [1/2, 1/2]).2.2.2 = some (listMean [1] - listMean [1/2, 1/2]) ∧
    (aggRow [] [] [1]).2.2.2 = none :=
  ⟨(aggRow_bias_spec [1] [] [1/2, 1/2]).1 (List.cons_ne_nil 1 []) (List.cons_ne_nil _ _),
   (aggRow_bias_spec [] [] [1]).2 (Or.inl rfl)⟩

/-- Unfolding of `sentKeyMatch` to propositional form. -/
theorem sentKeyMatch_iff (l o : String) (r : SentenceRow) :
    sentKeyMatch l o r = true ↔ (r.language = l ∧ r.original_text = o) := by
  simp [sentKeyMatch]

/-- Under the `UNIQUE(language, original_text)` constraint, a key that
occurs in the table occurs exactly once. -/
theorem filter_key_length_one (xs : List SentenceRow) (l o : String)
    (hu : xs.Pairwise (fun a b => ¬(a.language = b.language ∧ a.original_text = b.original_text)))
    (row : SentenceRow) (hmem : row ∈ xs) (hp : sentKeyMatch l o row = true) :
    (xs.filter (sentKeyMatch l o)).length = 1 := by
  induction xs with
  | nil => cases hmem
  | cons x xs ih =>
    rcases List.pairwise_cons.mp hu with ⟨hx, hxs⟩
    by_cases hpx : sentKeyMatch l o x = true
    · rw [List.filter_cons_of_pos hpx]
      have hnil : xs.filter (sentKeyMatch l o) = [] := by
        rw [List.filter_eq_nil_iff]
        intro y hy hpy
        have h1 := (sentKeyMatch_iff l o x).mp hpx
        have h2 := (sentKeyMatch_iff l o y).mp hpy
        exact hx y hy ⟨h1.1.trans h2.1.symm, h1.2.trans h2.2.symm⟩
      simp [hnil]
    · rw [List.filter_cons_of_neg hpx]
      cases hmem with
      | head => exact absurd hp hpx
      | tail _ hmem => exact ih hxs hmem

/-- C9: calling `insert_sentence` with a `(language, original_text)`
pair already present but different reference/baseline texts leaves the
whole store unchanged (first writer wins — the new texts are silently
discarded) and returns the existing row's identity. -/
theorem insert_sentence_first_writer_wins (db : DB) (language original human google : String)
    (row : SentenceRow)
    (hfind : db.sentences.find? (sentKeyMatch language original) = some row)
    (hdiff : row.translation_human ≠ human ∨ row.translation_google ≠ google) :
    insert_sentence db language original human google = some (row.id, db) := by
  have hp : sentKeyMatch language original row = true := List.find?_some hfind
  have hany : db.sentences.any (sentKeyMatch language original) = true :=
    List.any_eq_true.mpr ⟨row, List.mem_of_find?_eq_some hfind, hp⟩
  simp [insert_sentence, hany, hfind]

/-- Witness for C9: re-inserting the key with different texts returns
the old identity and changes nothing. -/
theorem insert_sentence_first_writer_wins_witness :
    insert_sentence c9DB "Finnish" "orig" "hum2" "goog2" = some (c9Row.id, c9DB) :=
  insert_sentence_first_writer_wins c9DB "Finnish" "orig" "hum2" "goog2" c9Row rfl
    (Or.inl (by decide))

/-- C7: `insert_sentence` is idempotent on the key
`(language, original_text)` — the two calls return the same identity,
the second call does not change the store, and exactly one row with
that key remains. -/
theorem insert_sentence_idempotent (db : DB) (l o h g h' g' : String) (hwf : DB.WF db) :
    ∃ id db₁, insert_sentence db l o h g = some (id, db₁) ∧
      insert_sentence db₁ l o h' g' = some (id, db₁) ∧
      (db₁.sentences.filter (sentKeyMatch l o)).length = 1 := by
  by_cases hany : db.sentences.any (sentKeyMatch l o) = true
  · obtain ⟨row, hmem, hp⟩ := List.any_eq_true.mp hany
    have hsome : (db.sentences.find? (sentKeyMatch l o)).isSome := by
      rw [List.find?_isSome]
      exact ⟨row, hmem, hp⟩
    obtain ⟨row', hfind⟩ := Option.isSome_iff_exists.mp hsome
    refine ⟨row'.id, db, ?_, ?_, ?_⟩
    · simp [insert_sentence, hany, hfind]
    · simp [insert_sentence, hany, hfind]
    · exact filter_key_length_one _ l o hwf.sent_unique row'
        (List.mem_of_find?_eq_some hfind) (List.find?_some hfind)
  · have hnone : db.sentences.find? (sentKeyMatch l o) = none := by
      rw [List.find?_eq_none]
      intro x hx hpx
      exact (List.any_eq_false.mp (Bool.eq_false_iff.mpr hany)) x hx hpx
    have hnew : sentKeyMatch l o ⟨db.nextSentenceId, l, o, h, g⟩ = true := by
      simp [sentKeyMatch]
    have hfind₁ :
        (db.sentences ++ [(⟨db.nextSentenceId, l, o, h, g⟩ : SentenceRow)]).find?
            (sentKeyMatch l o) =
          some ⟨db.nextSentenceId, l, o, h, g⟩ := by
      rw [List.find?_append, hnone]
      simp [List.find?_cons, hnew]
    have hany₁ :
        (db.sentences ++ [(⟨db.nextSentenceId, l, o, h, g⟩ : SentenceRow)]).any
          (sentKeyMatch l o) = true :=
      List.any_eq_true.mpr ⟨(⟨db.nextSentenceId, l, o, h, g⟩ : SentenceRow), by simp, hnew⟩
    refine ⟨db.nextSentenceId,
      { db with
        sentences := db.sentences ++ [⟨db.nextSentenceId, l, o, h, g⟩],
        nextSentenceId := db.nextSentenceId + 1 }, ?_, ?_, ?_⟩
    · simp only [insert_sentence, hany, if_false, Bool.false_eq_true]
      simp [hfind₁]
    · simp [insert_sentence, hany₁, hfind₁]
    · have hold : db.sentences.filter (sentKeyMatch l o) = [] := by
        rw [List.filter_eq_nil_iff]
        intro x hx hpx
        exact (List.any_eq_false.mp (Bool.eq_false_iff.mpr hany)) x hx hpx
      simp [List.filter_append, hold, hnew]

/-- Witness for C7 on the freshly initialised store. -/
theorem insert_sentence_idempotent_witness :
    ∃ id db₁, insert_sentence initDB "Finnish" "orig" "hum" "goog" = some (id, db₁) ∧
      insert_sentence db₁ "Finnish" "orig" "hum2" "goog2" = some (id, db₁) ∧
      (db₁.sentences.filter (sentKeyMatch "Finnish" "orig")).length = 1 :=
  insert_sentence_idempotent initDB "Finnish" "orig" "hum" "goog" "hum2" "goog2"
    (by constructor <;> simp [initDB])

/-! ## Row-count bookkeeping for `run_pipeline` (claim C5) -/

/-- Inverting a successful `Except` bind. -/
theorem exceptBind_ok {ε α β : Type} {x : Except ε α} {f : α → Except ε β} {b : β}
    (h : (x >>= f) = Except.ok b) : ∃ a, x = Except.ok a ∧ f a = Except.ok b := by
  cases x with
  | error e => simp [Bind.bind, Except.bind] at h
  | ok a => exact ⟨a, rfl, by simpa [Bind.bind, Except.bind] using h⟩

/-- The length of a filtered singleton. -/
theorem length_filter_singleton {α : Type} (p : α → Bool) (x : α) :
    ([x].filter p).length = if p x = true then 1 else 0 := by
  cases h : p x <;> simp [List.filter_cons, h]

/-- Appending one translation row adds one to the count of its own
(run, sentence) pair and nothing elsewhere. -/
theorem trans_count_append (ts : List TranslationRow) (x : TranslationRow) (r s : Nat) :
    ((ts ++ [x]).filter (fun t => t.run_id == r && t.sentence_id == s)).length =
      (ts.filter (fun t => t.run_id == r && t.sentence_id == s)).length +
        (if x.run_id = r ∧ x.sentence_id = s then 1 else 0) := by
  rw [List.filter_append, List.length_append, length_filter_singleton]
  simp [Bool.and_eq_true, beq_iff_eq]

/-- Appending one evaluation row adds one to the count of its own
(run, sentence) pair and nothing elsewhere. -/
theorem eval_count_append (es : List EvaluationRow) (x : EvaluationRow) (r s : Nat) :
    ((es ++ [x]).filter (fun e => e.run_id == r && e.sentence_id == s)).length =
      (es.filter (fun e => e.run_id == r && e.sentence_id == s)).length +
        (if x.run_id = r ∧ x.sentence_id = s then 1 else 0) := by
  rw [List.filter_append, List.length_append, length_filter_singleton]
  simp [Bool.and_eq_true, beq_iff_eq]

/-- A run id above every translation row has no translation rows. -/
theorem countTrans_eq_zero_of_bound (db : DB) (r : Nat) (h : transBound db r) (s : Nat) :
    countTrans db r s = 0 := by
  unfold countTrans
  rw [List.length_eq_zero, List.filter_eq_nil_iff]
  intro t ht hts
  simp only [Bool.and_eq_true, beq_iff_eq] at hts
  have := h t ht
  omega

/-- A run id above every evaluation row has no evaluation rows. -/
theorem countEval_eq_zero_of_bound (db : DB) (r : Nat) (h : evalBound db r) (s : Nat) :
    countEval db r s = 0 := by
  unfold countEval
  rw [List.length_eq_zero, List.filter_eq_nil_iff]
  intro e he hes
  simp only [Bool.and_eq_true, beq_iff_eq] at hes
  have := h e he
  omega

/-- Effect of one successful `processRow` call: sentences, runs and the
run counter are untouched; exactly one translation row and one
evaluation row for `(run_id, row.id)` are appended; run-id bounds above
`run_id` are preserved. -/
theorem processRow_effect
    (oai gem : Gateway) (provider model tsys esys lang : String) (run_id : Nat)
    (st : PyRandom × DB) (row : SentenceRow) (st' : PyRandom × DB)
    (h : processRow oai gem provider model tsys esys lang run_id st row = Except.ok st') :
    st'.2.sentences = st.2.sentences ∧
    st'.2.runs = st.2.runs ∧
    st'.2.nextRunId = st.2.nextRunId ∧
    (∀ r s : Nat, countTrans st'.2 r s =
      countTrans st.2 r s + (if run_id = r ∧ row.id = s then 1 else 0)) ∧
    (∀ r s : Nat, countEval st'.2 r s =
      countEval st.2 r s + (if run_id = r ∧ row.id = s then 1 else 0)) ∧
    (∀ B : Nat, transBound st.2 B → run_id < B → transBound st'.2 B) ∧
    (∀ B : Nat, evalBound st.2 B → run_id < B → evalBound st'.2 B) := by
  simp only [processRow] at h
  obtain ⟨t, hgt, h⟩ := exceptBind_ok h
  obtain ⟨ev, hbe, h⟩ := exceptBind_ok h
  have hst : st' = _ := (Except.ok.inj h).symm
  subst hst
  refine ⟨rfl, rfl, rfl, ?_, ?_, ?_, ?_⟩
  · intro r s
    exact trans_count_append _ _ r s
  · intro r s
    exact eval_count_append _ _ r s
  · intro B hB hrb tt htt
    simp only [insert_evaluation, insert_translation] at htt
    rcases List.mem_append.mp htt with hmem | hmem
    · exact hB tt hmem
    · rw [List.mem_singleton.mp hmem]
      exact hrb
  · intro B hB hrb ee hee
    simp only [insert_evaluation, insert_translation] at hee
    rcases List.mem_append.mp hee with hmem | hmem
    · exact hB ee hmem
    · rw [List.mem_singleton.mp hmem]
      exact hrb

/-- Effect of a successful fold of `processRow` over a row list: the
counts grow by the number of occurrences of each sentence id in the
list, at run id `run_id` only. -/
theorem foldRows_effect
    (oai gem : Gateway) (provider model tsys esys lang : String) (run_id : Nat)
    (rows : List SentenceRow) (st st' : PyRandom × DB)
    (h : rows.foldlM (processRow oai gem provider model tsys esys lang run_id) st =
      Except.ok st') :
    st'.2.sentences = st.2.sentences ∧
    st'.2.runs = st.2.runs ∧
    st'.2.nextRunId = st.2.nextRunId ∧
    (∀ r s : Nat, countTrans st'.2 r s =
      countTrans st.2 r s +
        (if run_id = r then (rows.filter (fun row => row.id == s)).length else 0)) ∧
    (∀ r s : Nat, countEval st'.2 r s =
      countEval st.2 r s +
        (if run_id = r then (rows.filter (fun row => row.id == s)).length else 0)) ∧
    (∀ B : Nat, transBound st.2 B → run_id < B → transBound st'.2 B) ∧
    (∀ B : Nat, evalBound st.2 B → run_id < B → evalBound st'.2 B) := by
  induction rows generalizing st with
  | nil =>
    simp only [List.foldlM_nil, pure, Except.pure] at h
    have hst : st' = st := (Except.ok.inj h).symm
    subst hst
    exact ⟨rfl, rfl, rfl, fun r s => by simp, fun r s => by simp,
      fun B hB _ => hB, fun B hB _ => hB⟩
  | cons row rows ih =>
    rw [List.foldlM_cons] at h
    obtain ⟨st₁, hrow, hrest⟩ := exceptBind_ok h
    obtain ⟨hs₁, hr₁, hn₁, hct₁, hce₁, hbt₁, hbe₁⟩ :=
      processRow_effect oai gem provider model tsys esys lang run_id st row st₁ hrow
    obtain ⟨hs₂, hr₂, hn₂, hct₂, hce₂, hbt₂, hbe₂⟩ := ih st₁ hrest
    refine ⟨hs₂.trans hs₁, hr₂.trans hr₁, hn₂.trans hn₁, ?_, ?_, ?_, ?_⟩
    · intro r s
      rw [hct₂ r s, hct₁ r s, List.filter_cons]
      by_cases h1 : run_id = r <;> by_cases h2 : row.id = s <;>
        simp [h1, h2, beq_iff_eq] <;> omega
    · intro r s
      rw [hce₂ r s, hce₁ r s, List.filter_cons]
      by_cases h1 : run_id = r <;> by_cases h2 : row.id = s <;>
        simp [h1, h2, beq_iff_eq] <;> omega
    · intro B hB hrb
      exact hbt₂ B (hbt₁ B hB hrb) hrb
    · intro B hB hrb
      exact hbe₂ B (hbe₁ B hB hrb) hrb

/-- Run-id bounds are monotone. -/
theorem transBound_mono (db : DB) (B B' : Nat) (h : transBound db B) (hle : B ≤ B') :
    transBound db B' :=
  fun t ht => Nat.lt_of_lt_of_le (h t ht) hle

/-- Run-id bounds are monotone. -/
theorem evalBound_mono (db : DB) (B B' : Nat) (h : evalBound db B) (hle : B ≤ B') :
    evalBound db B' :=
  fun e he => Nat.lt_of_lt_of_le (h e he) hle

/-- Effect of one successful `processLang` call: the counts at
`run_id` grow by the number of stored sentences with id `s` whose
language is the capitalized configured language name. -/
theorem processLang_effect
    (oai gem : Gateway) (provider model tsys esys : String) (run_id : Nat)
    (st st' : PyRandom × DB) (lang : String)
    (h : processLang oai gem provider model tsys esys run_id st lang = Except.ok st') :
    st'.2.sentences = st.2.sentences ∧
    st'.2.runs = st.2.runs ∧
    st'.2.nextRunId = st.2.nextRunId ∧
    (∀ r s : Nat, countTrans st'.2 r s =
      countTrans st.2 r s + (if run_id = r then langMatchCount st.2.sentences lang s else 0)) ∧
    (∀ r s : Nat, countEval st'.2 r s =
      countEval st.2 r s + (if run_id = r then langMatchCount st.2.sentences lang s else 0)) ∧
    (∀ B : Nat, transBound st.2 B → run_id < B → transBound st'.2 B) ∧
    (∀ B : Nat, evalBound st.2 B → run_id < B → evalBound st'.2 B) := by
  unfold processLang at h
  exact foldRows_effect oai gem provider model tsys esys lang run_id _ st st' h

/-- Effect of a successful fold of `processLang` over the configured
languages. -/
theorem foldLangs_effect
    (oai gem : Gateway) (provider model tsys esys : String) (run_id : Nat)
    (langs : List String) (st st' : PyRandom × DB)
    (h : langs.foldlM (processLang oai gem provider model tsys esys run_id) st =
      Except.ok st') :
    st'.2.sentences = st.2.sentences ∧
    st'.2.runs = st.2.runs ∧
    st'.2.nextRunId = st.2.nextRunId ∧
    (∀ r s : Nat, countTrans st'.2 r s =
      countTrans st.2 r s +
        (if run_id = r then
          (langs.map (fun lang => langMatchCount st.2.sentences lang s)).sum else 0)) ∧
    (∀ r s : Nat, countEval st'.2 r s =
      countEval st.2 r s +
        (if run_id = r then
          (langs.map (fun lang => langMatchCount st.2.sentences lang s)).sum else 0)) ∧
    (∀ B : Nat, transBound st.2 B → run_id < B → transBound st'.2 B) ∧
    (∀ B : Nat, evalBound st.2 B → run_id < B → evalBound st'.2 B) := by
  induction langs generalizing st with
  | nil =>
    simp only [List.foldlM_nil, pure, Except.pure] at h
    have hst : st' = st := (Except.ok.inj h).symm
    subst hst
    exact ⟨rfl, rfl, rfl, fun r s => by simp, fun r s => by simp,
      fun B hB _ => hB, fun B hB _ => hB⟩
  | cons lang langs ih =>
    rw [List.foldlM_cons] at h
    obtain ⟨st₁, hlang, hrest⟩ := exceptBind_ok h
    obtain ⟨hs₁, hr₁, hn₁, hct₁, hce₁, hbt₁, hbe₁⟩ :=
      processLang_effect oai gem provider model tsys esys run_id st st₁ lang hlang
    obtain ⟨hs₂, hr₂, hn₂, hct₂, hce₂, hbt₂, hbe₂⟩ := ih st₁ hrest
    refine ⟨hs₂.trans hs₁, hr₂.trans hr₁, hn₂.trans hn₁, ?_, ?_, ?_, ?_⟩
    · intro r s
      rw [hct₂ r s, hct₁ r s, hs₁, List.map_cons, List.sum_cons]
      by_cases h1 : run_id = r <;> simp [h1] <;> omega
    · intro r s
      rw [hce₂ r s, hce₁ r s, hs₁, List.map_cons, List.sum_cons]
      by_cases h1 : run_id = r <;> simp [h1] <;> omega
    · intro B hB hrb
      exact hbt₂ B (hbt₁ B hB hrb) hrb
    · intro B hB hrb
      exact hbe₂ B (hbe₁ B hB hrb) hrb

/-- Effect of one successful `processModel` call: the run counter
advances by one; counts at other run ids are untouched; counts at the
new run id grow by the per-language contributions; run-id bounds track
the new counter. -/
theorem processModel_effect
    (oai gem : Gateway) (G : Int → Nat → Nat) (clock : Nat → String) (cfg : Config)
    (db : DB) (mc : ModelCfg) (db' : DB)
    (h : processModel oai gem G clock cfg db mc = Except.ok db') :
    db'.sentences = db.sentences ∧
    db'.nextRunId = db.nextRunId + 1 ∧
    (∀ r s : Nat, r ≠ db.nextRunId → countTrans db' r s = countTrans db r s) ∧
    (∀ s : Nat, countTrans db' db.nextRunId s =
      countTrans db db.nextRunId s +
        (cfg.languages.map (fun lang => langMatchCount db.sentences lang s)).sum) ∧
    (∀ r s : Nat, r ≠ db.nextRunId → countEval db' r s = countEval db r s) ∧
    (∀ s : Nat, countEval db' db.nextRunId s =
      countEval db db.nextRunId s +
        (cfg.languages.map (fun lang => langMatchCount db.sentences lang s)).sum) ∧
    (transBound db db.nextRunId → transBound db' db'.nextRunId) ∧
    (evalBound db db.nextRunId → evalBound db' db'.nextRunId) := by
  simp only [processModel, insert_run] at h
  obtain ⟨stf, hfold, hok⟩ := exceptBind_ok h
  have hdb' : db' = stf.2 := (Except.ok.inj hok).symm
  subst hdb'
  obtain ⟨hs, hr, hn, hct, hce, hbt, hbe⟩ :=
    foldLangs_effect oai gem mc.provider mc.name cfg.translation_system cfg.evaluation_system
      db.nextRunId cfg.languages _ stf hfold
  refine ⟨hs, hn, ?_, ?_, ?_, ?_, ?_, ?_⟩
  · intro r s hne
    rw [hct r s]
    simp [Ne.symm hne, countTrans]
  · intro s
    rw [hct db.nextRunId s]
    simp [countTrans]
  · intro r s hne
    rw [hce r s]
    simp [Ne.symm hne, countEval]
  · intro s
    rw [hce db.nextRunId s]
    simp [countEval]
  · intro hB
    rw [hn]
    exact hbt (db.nextRunId + 1)
      (transBound_mono _ _ _ hB (Nat.le_succ _)) (Nat.lt_succ_self _)
  · intro hB
    rw [hn]
    exact hbe (db.nextRunId + 1)
      (evalBound_mono _ _ _ hB (Nat.le_succ _)) (Nat.lt_succ_self _)

/-- Folding `processModel` never touches counts at run ids below the
starting run counter. -/
theorem foldModels_preserve
    (oai gem : Gateway) (G : Int → Nat → Nat) (clock : Nat → String) (cfg : Config)
    (models : List ModelCfg) (db db' : DB)
    (h : models.foldlM (processModel oai gem G clock cfg) db = Except.ok db')
    (r : Nat) (hr : r < db.nextRunId) (s : Nat) :
    countTrans db' r s = countTrans db r s ∧ countEval db' r s = countEval db r s := by
  induction models generalizing db with
  | nil =>
    simp only [List.foldlM_nil, pure, Except.pure] at h
    have hdb : db' = db := (Except.ok.inj h).symm
    subst hdb
    exact ⟨rfl, rfl⟩
  | cons mc models ih =>
    rw [List.foldlM_cons] at h
    obtain ⟨db₁, hm, hrest⟩ := exceptBind_ok h
    obtain ⟨_, hn₁, hct₁, _, hce₁, _, _, _⟩ :=
      processModel_effect oai gem G clock cfg db mc db₁ hm
    have hr₁ : r < db₁.nextRunId := by omega
    obtain ⟨ht, he⟩ := ih db₁ hrest hr₁
    exact ⟨ht.trans (hct₁ r s (by omega)), he.trans (hce₁ r s (by omega))⟩

/-- After a successful fold of `processModel` over the configured
models, the `k`-th model's run — run id `db.nextRunId + k` — has for
every sentence id exactly the per-language contribution counted over
the sentences stored when the fold began. -/
theorem foldModels_count
    (oai gem : Gateway) (G : Int → Nat → Nat) (clock : Nat → String) (cfg : Config)
    (models : List ModelCfg) (db db' : DB)
    (h : models.foldlM (processModel oai gem G clock cfg) db = Except.ok db')
    (hbt : transBound db db.nextRunId) (hbe : evalBound db db.nextRunId)
    (k : Nat) (hk : k < models.length) (s : Nat) :
    countTrans db' (db.nextRunId + k) s =
      (cfg.languages.map (fun lang => langMatchCount db.sentences lang s)).sum ∧
    countEval db' (db.nextRunId + k) s =
      (cfg.languages.map (fun lang => langMatchCount db.sentences lang s)).sum := by
  induction models generalizing db k with
  | nil => exact absurd hk (by simp)
  | cons mc models ih =>
    rw [List.foldlM_cons] at h
    obtain ⟨db₁, hm, hrest⟩ := exceptBind_ok h
    obtain ⟨hs₁, hn₁, hct₁, hctr₁, hce₁, hcer₁, hbt₁, hbe₁⟩ :=
      processModel_effect oai gem G clock cfg db mc db₁ hm
    cases k with
    | zero =>
      obtain ⟨hpt, hpe⟩ := foldModels_preserve oai gem G clock cfg models db₁ db' hrest
        (db.nextRunId) (by omega) s
      constructor
      · rw [Nat.add_zero, hpt, hctr₁ s, countTrans_eq_zero_of_bound db _ hbt s, Nat.zero_add]
      · rw [Nat.add_zero, hpe, hcer₁ s, countEval_eq_zero_of_bound db _ hbe s, Nat.zero_add]
    | succ k =>
      have hk' : k < models.length := by simpa using hk
      obtain ⟨ht, he⟩ := ih db₁ hrest (hbt₁ hbt) (hbe₁ hbe) k hk'
      have hidx : db₁.nextRunId + k = db.nextRunId + (k + 1) := by omega
      rw [hidx, hs₁] at ht he
      exact ⟨ht, he⟩

/-- The operation `insert_sentence` preserves the store invariants and leaves every
table except `sentences` (and the run counter) unchanged. -/
theorem insert_sentence_preserves (db : DB) (l o hm g : String) (id : Nat) (db' : DB)
    (hins : insert_sentence db l o hm g = some (id, db')) (hwf : DB.WF db) :
    DB.WF db' ∧ db'.translations = db.translations ∧ db'.evaluations = db.evaluations ∧
    db'.runs = db.runs ∧ db'.nextRunId = db.nextRunId := by
  unfold insert_sentence at hins
  by_cases hany : db.sentences.any (sentKeyMatch l o) = true
  · rw [if_pos hany] at hins
    simp only [] at hins
    cases hfind : db.sentences.find? (sentKeyMatch l o) with
    | none => rw [hfind] at hins; cases hins
    | some row =>
      rw [hfind] at hins
      simp only [Option.some.injEq, Prod.mk.injEq] at hins
      obtain ⟨hid, hdb⟩ := hins
      subst hdb
      exact ⟨hwf, rfl, rfl, rfl, rfl⟩
  · rw [if_neg hany] at hins
    simp only [] at hins
    cases hfind : (db.sentences ++ [(⟨db.nextSentenceId, l, o, hm, g⟩ : SentenceRow)]).find?
        (sentKeyMatch l o) with
    | none => rw [hfind] at hins; cases hins
    | some row =>
      rw [hfind] at hins
      simp only [Option.some.injEq, Prod.mk.injEq] at hins
      obtain ⟨hid, hdb⟩ := hins
      subst hdb
      have hfalse : ∀ x ∈ db.sentences, ¬ sentKeyMatch l o x = true := by
        intro x hx hpx
        exact hany (List.any_eq_true.mpr ⟨x, hx, hpx⟩)
      refine ⟨⟨?_, ?_, ?_, ?_, ?_, ?_⟩, rfl, rfl, rfl, rfl⟩
      · intro s hs
        rcases List.mem_append.mp hs with hs | hs
        · exact Nat.lt_succ_of_lt (hwf.sent_lt s hs)
        · rw [List.mem_singleton.mp hs]
          exact Nat.lt_succ_self _
      · rw [List.pairwise_append]
        refine ⟨hwf.sent_sorted, List.pairwise_singleton _ _, ?_⟩
        intro a ha b hb
        rw [List.mem_singleton.mp hb]
        exact hwf.sent_lt a ha
      · rw [List.pairwise_append]
        refine ⟨hwf.sent_unique, List.pairwise_singleton _ _, ?_⟩
        intro a ha b hb
        rw [List.mem_singleton.mp hb]
        intro hc
        exact hfalse a ha ((sentKeyMatch_iff l o a).mpr ⟨hc.1, hc.2⟩)
      · exact hwf.runs_lt
      · exact hwf.trans_runs_lt
      · exact hwf.eval_runs_lt

/-- Folding the seed rows of one CSV file preserves the store
invariants and the run-related tables. -/
theorem seedRows_effect (rows : List CsvRow) :
    ∀ (db db' : DB),
    rows.foldlM
      (fun db row =>
        match insert_sentence db row.language row.original_text
            row.translation_human row.translation_google with
        | some (_, db') => Except.ok db'
        | none => Except.error "TypeError") db = Except.ok db' →
    DB.WF db →
    DB.WF db' ∧ db'.translations = db.translations ∧ db'.evaluations = db.evaluations ∧
      db'.runs = db.runs ∧ db'.nextRunId = db.nextRunId := by
  induction rows with
  | nil =>
    intro db db' h hwf
    simp only [List.foldlM_nil, pure, Except.pure] at h
    have hdb : db' = db := (Except.ok.inj h).symm
    subst hdb
    exact ⟨hwf, rfl, rfl, rfl, rfl⟩
  | cons row rows ih =>
    intro db db' h hwf
    rw [List.foldlM_cons] at h
    obtain ⟨db₁, hstep, hrest⟩ := exceptBind_ok h
    cases hins : insert_sentence db row.language row.original_text
        row.translation_human row.translation_google with
    | none => rw [hins] at hstep; cases hstep
    | some p =>
      obtain ⟨idv, dbv⟩ := p
      rw [hins] at hstep
      have hdb₁ : db₁ = dbv := (Except.ok.inj hstep).symm
      subst hdb₁
      obtain ⟨hwf₁, ht₁, he₁, hr₁, hn₁⟩ :=
        insert_sentence_preserves db row.language row.original_text
          row.translation_human row.translation_google idv db₁ hins hwf
      obtain ⟨hwf₂, ht₂, he₂, hr₂, hn₂⟩ := ih db₁ db' hrest hwf₁
      exact ⟨hwf₂, ht₂.trans ht₁, he₂.trans he₁, hr₂.trans hr₁, hn₂.trans hn₁⟩

/-- The operation `load_seed_data` preserves the store invariants and the run-related
tables. -/
theorem load_seed_effect (seedData : String → Option (List CsvRow)) (languages : List String) :
    ∀ (db₀ db₁ : DB),
    load_seed_data seedData languages db₀ = Except.ok db₁ →
    DB.WF db₀ →
    DB.WF db₁ ∧ db₁.translations = db₀.translations ∧ db₁.evaluations = db₀.evaluations ∧
      db₁.runs = db₀.runs ∧ db₁.nextRunId = db₀.nextRunId := by
  unfold load_seed_data
  induction languages with
  | nil =>
    intro db₀ db₁ h hwf
    simp only [List.foldlM_nil, pure, Except.pure] at h
    have hdb : db₁ = db₀ := (Except.ok.inj h).symm
    subst hdb
    exact ⟨hwf, rfl, rfl, rfl, rfl⟩
  | cons lang langs ih =>
    intro db₀ db₁ h hwf
    rw [List.foldlM_cons] at h
    obtain ⟨dbm, hstep, hrest⟩ := exceptBind_ok h
    cases hsd : seedData lang with
    | none => rw [hsd] at hstep; cases hstep
    | some rows =>
      rw [hsd] at hstep
      obtain ⟨hwfm, htm, hem, hrm, hnm⟩ := seedRows_effect rows db₀ dbm hstep hwf
      obtain ⟨hwf₁, ht₁, he₁, hr₁, hn₁⟩ := ih dbm db₁ hrest hwfm
      exact ⟨hwf₁, ht₁.trans htm, he₁.trans hem, hr₁.trans hrm, hn₁.trans hnm⟩

/-- In a table whose ids are strictly increasing, the rows selected for
language `L` that carry the id of a stored row `row` number exactly one
when `row`'s language is `L` and zero otherwise. -/
theorem filter_by_id_count (L : String) (i : Nat) :
    ∀ (xs : List SentenceRow), xs.Pairwise (fun a b => a.id < b.id) →
    ∀ row ∈ xs, row.id = i →
    ((xs.filter (fun r => r.language == L)).filter (fun r => r.id == i)).length =
      if row.language = L then 1 else 0 := by
  intro xs
  induction xs with
  | nil =>
    intro _ row hrow _
    cases hrow
  | cons x xs ih =>
    intro hsorted row hrow hid
    rcases List.pairwise_cons.mp hsorted with ⟨hx, hxs⟩
    have htail0 : ∀ y ∈ xs, x.id < y.id := hx
    cases hrow with
    | head =>
      have hrest : ((xs.filter (fun r => r.language == L)).filter
          (fun r => r.id == i)).length = 0 := by
        rw [List.length_eq_zero, List.filter_eq_nil_iff]
        intro y hy hpy
        have hyxs : y ∈ xs := List.mem_of_mem_filter hy
        have := htail0 y hyxs
        have := beq_iff_eq.mp hpy
        omega
      by_cases hl : x.language = L
      · rw [List.filter_cons_of_pos (by simp [beq_iff_eq, hl]),
          List.filter_cons_of_pos (by simp [beq_iff_eq, hid]), if_pos hl,
          List.length_cons, hrest]
      · rw [List.filter_cons_of_neg (by simp [beq_iff_eq, hl]), if_neg hl, hrest]
    | tail _ hmem =>
      have hxid : ¬ x.id = i := by
        have := htail0 row hmem
        omega
      by_cases hl : x.language = L
      · rw [List.filter_cons_of_pos (by simp [beq_iff_eq, hl]),
          List.filter_cons_of_neg (by simp [beq_iff_eq, hxid])]
        exact ih hxs row hmem hid
      · rw [List.filter_cons_of_neg (by simp [beq_iff_eq, hl])]
        exact ih hxs row hmem hid

/-- With pairwise-distinct capitalized language names, the indicator sum
over the configured languages is exactly one for the language whose
capitalization matches. -/
theorem sum_indicator_one (target : String) :
    ∀ (langs : List String), (langs.map pyCapitalize).Pairwise (· ≠ ·) →
    ∀ lang ∈ langs, pyCapitalize lang = target →
    (langs.map (fun l' => if target = pyCapitalize l' then (1 : Nat) else 0)).sum = 1 := by
  intro langs
  induction langs with
  | nil =>
    intro _ lang hmem _
    cases hmem
  | cons l ls ih =>
    intro hd lang hmem htarget
    rw [List.map_cons] at hd
    rcases List.pairwise_cons.mp hd with ⟨hneq, hd'⟩
    rw [List.map_cons, List.sum_cons]
    by_cases hl : target = pyCapitalize l
    · rw [if_pos hl]
      have h0 : (ls.map (fun l' => if target = pyCapitalize l' then (1 : Nat) else 0)).sum = 0 := by
        apply List.sum_eq_zero
        intro x hx
        rcases List.mem_map.mp hx with ⟨l', hl', rfl⟩
        rw [if_neg]
        intro hceq
        exact hneq (pyCapitalize l') (List.mem_map_of_mem _ hl') (hl.symm.trans hceq)
      rw [h0]
    · rw [if_neg hl, Nat.zero_add]
      cases hmem with
      | head => exact absurd htarget.symm hl
      | tail _ hmem => exact ih hd' lang hmem htarget

/-- C5 counterexample: the claim fails as stated.  With the configured
language `"finnish"` and a seed row stored under the language value
`"finnish"`, the pipeline completes, the sentence is stored for that
configured language and the run exists, yet zero translation rows and
zero evaluation rows were produced for it — the pipeline queries the
*capitalized* name `"Finnish"` and skips the sentence. -/
theorem run_pipeline_skips_mismatched_case :
    run_pipeline lowercaseCfg stubOai stubGem stubG stubClock initDB =
      Except.ok lowercaseFinalDB ∧
    lowercaseFinalDB.sentences = [⟨1, "finnish", "orig", "hum", "goog"⟩] ∧
    "finnish" ∈ lowercaseCfg.languages ∧
    lowercaseFinalDB.runs.length = 1 ∧
    countTrans lowercaseFinalDB 1 1 = 0 ∧
    countEval lowercaseFinalDB 1 1 = 0 :=
  ⟨rfl, rfl, by decide, rfl, rfl, rfl⟩

/-- C5 (amended): for every configured model (the `k`-th, whose run id
is the store's run counter plus `k`) and every configured language,
`run_pipeline` produces exactly one Translation row and exactly one
Evaluation row per run for every sentence whose stored language equals
the *capitalized* configured language name — sentences stored under any
other casing of the language are skipped.  The hypotheses are the
schema-level store invariants and pairwise-distinct capitalized
configured language names. -/
theorem run_pipeline_exactly_one_per_matching_sentence
    (cfg : Config) (oai gem : Gateway) (G : Int → Nat → Nat) (clock : Nat → String)
    (db₀ db₁ db' : DB)
    (hwf : DB.WF db₀)
    (hdistinct : (cfg.languages.map pyCapitalize).Pairwise (· ≠ ·))
    (hseed : load_seed_data cfg.seedData cfg.languages db₀ = Except.ok db₁)
    (hrun : run_pipeline cfg oai gem G clock db₀ = Except.ok db')
    (k : Nat) (hk : k < cfg.models.length)
    (lang : String) (hlang : lang ∈ cfg.languages)
    (row : SentenceRow) (hrow : row ∈ db₁.sentences)
    (hrowlang : row.language = pyCapitalize lang) :
    countTrans db' (db₁.nextRunId + k) row.id = 1 ∧
    countEval db' (db₁.nextRunId + k) row.id = 1 := by
  unfold run_pipeline at hrun
  obtain ⟨db₁', hseed', hfold⟩ := exceptBind_ok hrun
  have hdb : db₁' = db₁ := Except.ok.inj (hseed'.symm.trans hseed)
  rw [hdb] at hfold
  obtain ⟨hwf₁, _, _, _, _⟩ := load_seed_effect cfg.seedData cfg.languages db₀ db₁ hseed hwf
  have hbt₁ : transBound db₁ db₁.nextRunId := hwf₁.trans_runs_lt
  have hbe₁ : evalBound db₁ db₁.nextRunId := hwf₁.eval_runs_lt
  obtain ⟨hT, hE⟩ :=
    foldModels_count oai gem G clock cfg cfg.models db₁ db' hfold hbt₁ hbe₁ k hk row.id
  have hmap : cfg.languages.map (fun lang' => langMatchCount db₁.sentences lang' row.id) =
      cfg.languages.map (fun lang' => if row.language = pyCapitalize lang' then 1 else 0) := by
    apply List.map_congr_left
    intro lang' _
    exact filter_by_id_count (pyCapitalize lang') row.id db₁.sentences hwf₁.sent_sorted
      row hrow rfl
  have hsum :
      (cfg.languages.map (fun lang' => langMatchCount db₁.sentences lang' row.id)).sum = 1 := by
    rw [hmap]
    exact sum_indicator_one row.language cfg.languages hdistinct lang hlang hrowlang.symm
  rw [hsum] at hT hE
  exact ⟨hT, hE⟩

/-- Witness for the amended C5 on the matched concrete scenario. -/
theorem run_pipeline_exactly_one_witness :
    countTrans matchedFinalDB (matchedSeedDB.nextRunId + 0) 1 = 1 ∧
    countEval matchedFinalDB (matchedSeedDB.nextRunId + 0) 1 = 1 :=
  run_pipeline_exactly_one_per_matching_sentence matchedCfg stubOai stubGem stubG stubClock
    initDB matchedSeedDB matchedFinalDB
    (by constructor <;> simp [initDB])
    (by simp [matchedCfg])
    rfl rfl 0 (by decide) "finnish" (by decide)
    ⟨1, "Finnish", "orig", "hum", "goog"⟩ (by decide) rfl

end FD
